import Mathlib

/-!
Shallow embedding of the BIOS second-stage bootloader
(`src/bios/stage-2/src/main.rs` of `azyklus/springboard`).

Machine integers are modelled as `Nat`; the claims never exercise overflow
(all addresses and sizes stay far below `2^32`).  Pointers are modelled as
plain addresses (`Nat`).  The modules `disk`, `fat` and `protected_mode`
referenced by `main.rs` are not part of the source tree; where their
behaviour decides a claim they are modelled from the specification and the
corresponding definitions carry a `Modelled from the spec:` doc comment.
-/

namespace Springboard

/-- Partition type classification, mirroring `mbr_nostd::PartitionType`
(the tagged variant the spec describes in §3). -/
inductive PartitionType where
  | unused
  | unknown (tag : Nat)
  | fat12 (tag : Nat)
  | fat16 (tag : Nat)
  | fat32 (tag : Nat)
  | linuxExt (tag : Nat)
  | hfsPlus (tag : Nat)
  | iso9660 (tag : Nat)
  | ntfsExfat (tag : Nat)
deriving DecidableEq

/-- Embeds `mbr_nostd::PartitionType::from_mbr_tag_byte`: classify an MBR
partition-type byte into a tagged variant.  Unrecognised bytes (such as the
reserved sentinel `0x20`) become `unknown tag`. -/
def from_mbr_tag_byte (tag : Nat) : PartitionType :=
  if tag = 0x00 then .unused
  else if tag = 0x01 then .fat12 tag
  else if tag = 0x04 ∨ tag = 0x06 ∨ tag = 0x0e then .fat16 tag
  else if tag = 0x0b ∨ tag = 0x0c ∨ tag = 0x1b ∨ tag = 0x1c then .fat32 tag
  else if tag = 0x83 then .linuxExt tag
  else if tag = 0x07 then .ntfsExfat tag
  else if tag = 0xaf then .hfsPlus tag
  else if tag = 0xcd then .iso9660 tag
  else .unknown tag

/-- Embeds `mbr_nostd::PartitionTableEntry`: classified type byte, little-endian
LBA start and little-endian sector count. -/
structure PartitionTableEntry where
  partition_type : PartitionType
  logical_block_address : Nat
  sector_count : Nat
deriving DecidableEq

/-- Embeds `PartitionTableEntry::empty()`. -/
def PartitionTableEntry.empty : PartitionTableEntry :=
  { partition_type := .unused, logical_block_address := 0, sector_count := 0 }

instance : Inhabited PartitionTableEntry := ⟨PartitionTableEntry.empty⟩

/-- Embeds `byteorder::LittleEndian::read_u32(&raw[off..])`. -/
def read_u32_le (raw : List Nat) (off : Nat) : Nat :=
  raw.getD off 0 + 2 ^ 8 * raw.getD (off + 1) 0 +
    2 ^ 16 * raw.getD (off + 2) 0 + 2 ^ 24 * raw.getD (off + 3) 0

/-- The partition-table parse loop of `_start` (main.rs lines 48-62):
4 records of 16 bytes; per record the type byte sits at `offset+4`, the
LBA at `offset+8` and the sector count at `offset+12`. -/
def parse_entries (raw : List Nat) : List PartitionTableEntry :=
  (List.range 4).map fun idx =>
    let offset := idx * 16
    { partition_type := from_mbr_tag_byte (raw.getD (offset + 4) 0)
      logical_block_address := read_u32_le raw (offset + 8)
      sector_count := read_u32_le raw (offset + 12) }

/-- Constant `BOOTLOADER_SECOND_STAGE_PARTITION_TYPE` (main.rs line 23). -/
def BOOTLOADER_SECOND_STAGE_PARTITION_TYPE : Nat := 0x20

/-- The `matches!` test of the assertion at main.rs lines 73-76. -/
def isFatType : PartitionType → Bool
  | .fat12 _ => true
  | .fat16 _ => true
  | .fat32 _ => true
  | _ => false

/-- Partition selection of `_start` (main.rs lines 63-76): find the first
entry of reserved type `Unknown(0x20)` (panic when absent), take the entry
at the following index (panic when absent), and assert it is a FAT
partition.  Each `unwrap`/`assert!` failure is a fatal halt, modelled as
`Except.error`. -/
def select_partitions (partitions : List PartitionTableEntry) :
    Except String (Nat × PartitionTableEntry) :=
  match partitions.findIdx?
      (fun e => decide (e.partition_type =
        PartitionType.unknown BOOTLOADER_SECOND_STAGE_PARTITION_TYPE)) with
  | none => .error "boot partition not found"
  | some idx =>
    match partitions.get? (idx + 1) with
    | none => .error "fat table entry not found"
    | some fat_partition =>
      if isFatType fat_partition.partition_type then .ok (idx, fat_partition)
      else .error "unexpected partition type"

/-- Constant `STAGE_3_DST` (main.rs line 25): 1 MiB. -/
def STAGE_3_DST : Nat := 0x00100000

/-- Constant `KERNEL_DST` (main.rs line 26): 16 MiB. -/
def KERNEL_DST : Nat := 0x01000000

/-- Embeds `<*mut u8>::align_offset(align)` for a pointer at address `addr`:
the number of bytes to add to reach the next multiple of `align`. -/
def align_offset (addr align : Nat) : Nat := (align - addr % align) % align

/-- The `stage_4_dst` computation of `_start` (main.rs lines 91-95):
the stage-3 end address rounded up to the next 512-byte boundary. -/
def stage_4_dst (stage_3_len : Nat) : Nat :=
  let stage_3_end := STAGE_3_DST + stage_3_len
  stage_3_end + align_offset stage_3_end 512

/-- Capacity of the static `DISK_BUFFER : AlignedArrayBuffer<0x4000>`
(main.rs lines 36-38); `disk_buffer.buffer.len()` in `load_file`. -/
def DISK_BUFFER_SIZE : Nat := 0x4000

/-- One cluster extent produced by the FAT driver's chain walk
(`fat::FileSystem::file_clusters`): an absolute disk byte offset and a
length in bytes. -/
structure Cluster where
  start_offset : Nat
  len_bytes : Nat
deriving DecidableEq

/-- Observable actions of the stage, recorded as a trace. -/
inductive Event where
  | enterUnreal
  | parseTable
  | loadStart (name : String) (dst : Nat)
  | diskRead (start : Nat) (size : Nat)
  | copyChunk (dst : Nat) (len : Nat)
  | jump (addr : Nat)
deriving DecidableEq

/-- Abstract interface to the unreal-mode bridge: `copy_to_protected_mode`
writes a byte slice at a 32-bit destination and `read_from_protected_mode`
reads a single byte back.  Modelled from the spec: `protected_mode.rs` is
not under `src/` (§4.4: copy of a low-memory slice to a physical
destination; single-byte readback canary). -/
structure MemOps (σ : Type) where
  copy : σ → Nat → List Nat → σ
  read : σ → Nat → Nat

/-- The bytes `read_exact_into` leaves in the staging buffer, truncated to
the chunk length: bytes `[rangeStart, rangeStart+len)` of the backing
medium.  Modelled from the spec: `disk.rs` is not under `src/` (§4.2:
`seek(o)` then `read_exact(n)` returns exactly the bytes at absolute
offset `[o, o+n)`). -/
def chunk_slice (disk : Nat → Nat) (rangeStart len : Nat) : List Nat :=
  (List.range len).map fun i => disk (rangeStart + i)

/-- Length of the chunk starting at within-cluster `offset`:
`range_end - range_start` where
`range_end = min (range_start + disk_buffer_size) cluster_end`
(main.rs lines 133-137). -/
def chunk_len (clusterStart clusterEnd offset : Nat) : Nat :=
  min (clusterStart + offset + DISK_BUFFER_SIZE) clusterEnd -
    (clusterStart + offset)

/-- The inner chunk loop of `load_file` (main.rs lines 127-160) for one
cluster extent.  Per iteration: bound the range end by the cluster end and
the staging-buffer capacity, read `DISK_BUFFER_SIZE` bytes from the disk
at `range_start`, copy the first `len` of them to `dst + offset`, read one
byte back from `dst + offset` and halt fatally (`assert_eq!`) unless it
equals the first byte of the chunk.  The `fuel` argument only bounds the
recursion depth; every caller passes at least the remaining byte count,
and each iteration consumes at least one byte, so the `fuel = 0` branch
is never taken (see `load_chunks_fuel_irrelevant`). -/
def load_chunks {σ : Type} (mo : MemOps σ) (disk : Nat → Nat)
    (clusterStart clusterEnd dst offset : Nat) (mem : σ) (fuel : Nat) :
    Except String σ × List Event :=
  if clusterStart + offset < clusterEnd then
    match fuel with
    | 0 => (.error "out of fuel", [])
    | fuel + 1 =>
      let len := chunk_len clusterStart clusterEnd offset
      let slice := chunk_slice disk (clusterStart + offset) len
      let mem2 := mo.copy mem (dst + offset) slice
      let evts := [Event.diskRead (clusterStart + offset) DISK_BUFFER_SIZE,
                   Event.copyChunk (dst + offset) len]
      if slice.headD 0 = mo.read mem2 (dst + offset) then
        let rest := load_chunks mo disk clusterStart clusterEnd dst
          (offset + len) mem2 fuel
        (rest.1, evts ++ rest.2)
      else (.error "canary mismatch", evts)
  else (.ok mem, [])

/-- The outer cluster loop of `load_file` (main.rs lines 120-161):
accumulate `total_size` over the extents and stream each extent through
the chunk loop; the destination offset restarts at 0 for every cluster,
exactly as in the source. -/
def load_extents {σ : Type} (mo : MemOps σ) (disk : Nat → Nat) (dst : Nat)
    (extents : List Cluster) (mem : σ) (totalSize : Nat) :
    Except String σ × List Event × Nat :=
  match extents with
  | [] => (.ok mem, [], totalSize)
  | c :: rest =>
    let clusterStart := c.start_offset
    let clusterEnd := clusterStart + c.len_bytes
    let total2 := totalSize + c.len_bytes
    let r := load_chunks mo disk clusterStart clusterEnd dst 0 mem c.len_bytes
    match r.1 with
    | .error e => (.error e, r.2, total2)
    | .ok mem2 =>
      let r2 := load_extents mo disk dst rest mem2 total2
      (r2.1, r.2 ++ r2.2.1, r2.2.2)

/-- Embeds `load_file` (main.rs lines 109-163).  The FAT lookup
`find_file_in_root_dir` / `file_clusters` pipeline is abstracted as a map
`files` from file names to the extent list the chain walk produces (the
walk itself is modelled in `file_clusters` below); a missing file is the
fatal `expect("file not found")`.  Returns the accumulated `total_size`
on success. -/
def load_file {σ : Type} (mo : MemOps σ) (disk : Nat → Nat)
    (files : String → Option (List Cluster)) (name : String) (dst : Nat)
    (mem : σ) : Except String (σ × Nat) × List Event :=
  match files name with
  | none => (.error "file not found", [])
  | some extents =>
    let r := load_extents mo disk dst extents mem 0
    match r.1 with
    | .error e => (.error e, Event.loadStart name dst :: r.2.1)
    | .ok mem2 => (.ok (mem2, r.2.2), Event.loadStart name dst :: r.2.1)

/-- Embeds `_start` (main.rs lines 42-107): enter unreal mode, parse the
partition table, select the reserved and FAT partitions, then load the
three named files in fixed order and jump to `STAGE_3_DST`.  The final
far jump is the last event of a successful trace and nothing follows it
(the `loop {}` after it is unreachable). -/
def start {σ : Type} (mo : MemOps σ) (raw : List Nat) (disk : Nat → Nat)
    (files : String → Option (List Cluster)) (mem : σ) :
    Except String σ × List Event :=
  let t0 := [Event.enterUnreal, Event.parseTable]
  match select_partitions (parse_entries raw) with
  | .error e => (.error e, t0)
  | .ok _ =>
    match load_file mo disk files "boot-stage-3" STAGE_3_DST mem with
    | (.error e, t1) => (.error e, t0 ++ t1)
    | (.ok (mem1, stage_3_len), t1) =>
      match load_file mo disk files "boot-stage-4" (stage_4_dst stage_3_len) mem1 with
      | (.error e, t2) => (.error e, t0 ++ t1 ++ t2)
      | (.ok (mem2, _), t2) =>
        match load_file mo disk files "kernel-x86_64" KERNEL_DST mem2 with
        | (.error e, t3) => (.error e, t0 ++ t1 ++ t2 ++ t3)
        | (.ok (mem3, _), t3) =>
          (.ok mem3, t0 ++ t1 ++ t2 ++ t3 ++ [Event.jump STAGE_3_DST])

/-- Modelled from the spec: `fat.rs` (`fat::FileSystem::file_clusters`) is
not under `src/`.  §4.3: each cluster of the chain maps to
`start = data_region_offset + (cluster_number − 2) × cluster_size_bytes`
and `len = cluster_size_bytes`, except the final cluster's contribution is
capped by the file size.  `remaining` is the file size not yet covered by
earlier clusters, so each extent's length is `min cluster_size remaining`. -/
def file_clusters (dataRegionOffset clusterSize : Nat) :
    List Nat → Nat → List Cluster
  | [], _ => []
  | c :: rest, remaining =>
    { start_offset := dataRegionOffset + (c - 2) * clusterSize
      len_bytes := min clusterSize remaining } ::
      file_clusters dataRegionOffset clusterSize rest (remaining - clusterSize)

/-- The complete byte image of a file: the concatenation of the disk bytes
covered by its cluster extents, in chain order. -/
def file_bytes (disk : Nat → Nat) (extents : List Cluster) : List Nat :=
  (extents.map fun c =>
    (List.range c.len_bytes).map fun i => disk (c.start_offset + i)).flatten

/-- Pointwise-updated function memory: writing `bytes` at `dst`. -/
def mem_write (m : Nat → Nat) (dst : Nat) (bytes : List Nat) : Nat → Nat :=
  fun a => if dst ≤ a ∧ a < dst + bytes.length then bytes.getD (a - dst) 0 else m a

/-- Faithful high-memory model: copies land exactly where requested and
reads return what was written. -/
def flatMem : MemOps (Nat → Nat) :=
  { copy := mem_write, read := fun m a => m a }

/-- A faulty bridge that corrupts every byte of each copied chunk except
the first: the written image is the chunk's first byte followed by `0xee`
filler. -/
def corruptTailMem : MemOps (Nat → Nat) :=
  { copy := fun m d bytes =>
      mem_write m d (match bytes with
        | [] => []
        | b :: rest => b :: rest.map fun _ => 0xee)
    read := fun m a => m a }

/-- A faulty bridge that corrupts the first byte of each copied chunk
(adds one to it). -/
def corruptFirstMem : MemOps (Nat → Nat) :=
  { copy := fun m d bytes =>
      mem_write m d (match bytes with
        | [] => []
        | b :: rest => (b + 1) :: rest)
    read := fun m a => m a }

/-- Maps `Except.ok` to `true` and `Except.error` to `false`. -/
def exceptOk {ε α : Type} : Except ε α → Bool
  | .ok _ => true
  | .error _ => false

/-- Final memory of a `load_file` result (`d` when the load halted). -/
def result_mem {σ : Type} (d : σ) : Except String (σ × Nat) → σ
  | .ok (m, _) => m
  | .error _ => d

/-- Returned total size of a `load_file` result (`0` when the load halted). -/
def result_total {σ : Type} : Except String (σ × Nat) → Nat
  | .ok (_, t) => t
  | .error _ => 0

/-! Unfolding equations and helper lemmas for the loop embeddings. -/

theorem chunk_len_pos {cs ce offset : Nat} (h : cs + offset < ce) :
    0 < chunk_len cs ce offset := by
  have hb : 0 < DISK_BUFFER_SIZE := by decide
  unfold chunk_len
  omega

theorem chunk_len_le (cs ce offset : Nat) :
    chunk_len cs ce offset ≤ DISK_BUFFER_SIZE := by
  unfold chunk_len
  omega

theorem chunk_slice_length (disk : Nat → Nat) (rs len : Nat) :
    (chunk_slice disk rs len).length = len := by
  simp [chunk_slice]

theorem chunk_slice_ne_nil {disk : Nat → Nat} {rs len : Nat} (h : 0 < len) :
    chunk_slice disk rs len ≠ [] := by
  intro hnil
  have := chunk_slice_length disk rs len
  rw [hnil] at this
  simp at this
  omega

theorem chunk_slice_getD {disk : Nat → Nat} {rs len k : Nat} (h : k < len) :
    (chunk_slice disk rs len).getD k 0 = disk (rs + k) := by
  simp [chunk_slice, List.getD, h]

theorem mem_write_at_dst {m : Nat → Nat} {d : Nat} {bytes : List Nat}
    (h : bytes ≠ []) : mem_write m d bytes d = bytes.headD 0 := by
  unfold mem_write
  have hlen : 0 < bytes.length := List.length_pos.mpr h
  rw [if_pos ⟨Nat.le_refl d, by omega⟩]
  cases bytes with
  | nil => simp at hlen
  | cons b rest => simp

/-- The single-byte readback after a copy returns the first byte of the
copied slice.  Holds for the faithful memory and for the
tail-corrupting memory, but not for the first-byte-corrupting one. -/
def preserves_head {σ : Type} (mo : MemOps σ) : Prop :=
  ∀ (m : σ) (d : Nat) (bytes : List Nat), bytes ≠ [] →
    mo.read (mo.copy m d bytes) d = bytes.headD 0

theorem flatMem_preserves_head : preserves_head flatMem := by
  intro m d bytes h
  exact mem_write_at_dst h

theorem corruptTailMem_preserves_head : preserves_head corruptTailMem := by
  intro m d bytes h
  cases bytes with
  | nil => simp at h
  | cons b rest =>
    show mem_write m d (b :: rest.map fun _ => 0xee) d = (b :: rest).headD 0
    rw [mem_write_at_dst (by simp)]
    rfl

theorem load_chunks_stop {σ : Type} {mo : MemOps σ} {disk : Nat → Nat}
    {cs ce dst offset : Nat} {mem : σ} {fuel : Nat} (h : ¬ cs + offset < ce) :
    load_chunks mo disk cs ce dst offset mem fuel = (.ok mem, []) := by
  rw [load_chunks.eq_def]
  simp [h]

theorem load_chunks_succ_pass {σ : Type} {mo : MemOps σ} {disk : Nat → Nat}
    {cs ce dst offset : Nat} {mem : σ} {fuel : Nat} (h : cs + offset < ce)
    (hpass : (chunk_slice disk (cs + offset) (chunk_len cs ce offset)).headD 0 =
      mo.read (mo.copy mem (dst + offset)
        (chunk_slice disk (cs + offset) (chunk_len cs ce offset))) (dst + offset)) :
    load_chunks mo disk cs ce dst offset mem (fuel + 1) =
      ((load_chunks mo disk cs ce dst (offset + chunk_len cs ce offset)
          (mo.copy mem (dst + offset)
            (chunk_slice disk (cs + offset) (chunk_len cs ce offset))) fuel).1,
        Event.diskRead (cs + offset) DISK_BUFFER_SIZE ::
          Event.copyChunk (dst + offset) (chunk_len cs ce offset) ::
          (load_chunks mo disk cs ce dst (offset + chunk_len cs ce offset)
            (mo.copy mem (dst + offset)
              (chunk_slice disk (cs + offset) (chunk_len cs ce offset))) fuel).2) := by
  conv_lhs => rw [load_chunks.eq_def]
  rw [if_pos h]
  simp only []
  rw [if_pos hpass]
  rfl

theorem load_chunks_succ_fail {σ : Type} {mo : MemOps σ} {disk : Nat → Nat}
    {cs ce dst offset : Nat} {mem : σ} {fuel : Nat} (h : cs + offset < ce)
    (hfail : ¬ (chunk_slice disk (cs + offset) (chunk_len cs ce offset)).headD 0 =
      mo.read (mo.copy mem (dst + offset)
        (chunk_slice disk (cs + offset) (chunk_len cs ce offset))) (dst + offset)) :
    load_chunks mo disk cs ce dst offset mem (fuel + 1) =
      (.error "canary mismatch",
       [Event.diskRead (cs + offset) DISK_BUFFER_SIZE,
        Event.copyChunk (dst + offset) (chunk_len cs ce offset)]) := by
  conv_lhs => rw [load_chunks.eq_def]
  rw [if_pos h]
  simp only []
  rw [if_neg hfail]

/-- Any fuel at least the remaining byte count gives the same result:
the fuel device of the embedding does not influence the modelled loop. -/
theorem load_chunks_fuel_irrelevant {σ : Type} (mo : MemOps σ)
    (disk : Nat → Nat) (cs ce dst : Nat) :
    ∀ (fuel fuel' offset : Nat) (mem : σ),
      ce ≤ cs + offset + fuel → ce ≤ cs + offset + fuel' →
      load_chunks mo disk cs ce dst offset mem fuel =
        load_chunks mo disk cs ce dst offset mem fuel' := by
  intro fuel
  induction fuel with
  | zero =>
    intro fuel' offset mem hf hf'
    have h : ¬ cs + offset < ce := by omega
    rw [load_chunks_stop h, load_chunks_stop h]
  | succ fuel ih =>
    intro fuel' offset mem hf hf'
    by_cases h : cs + offset < ce
    · have hlen := chunk_len_pos h
      cases fuel' with
      | zero => omega
      | succ fuel' =>
        by_cases hc : (chunk_slice disk (cs + offset)
            (chunk_len cs ce offset)).headD 0 =
            mo.read (mo.copy mem (dst + offset)
              (chunk_slice disk (cs + offset) (chunk_len cs ce offset)))
              (dst + offset)
        · rw [load_chunks_succ_pass h hc, load_chunks_succ_pass h hc,
            ih fuel' (offset + chunk_len cs ce offset) _ (by omega) (by omega)]
        · rw [load_chunks_succ_fail h hc, load_chunks_succ_fail h hc]
    · rw [load_chunks_stop h, load_chunks_stop h]

/-- When the bridge returns the first written byte on readback, the chunk
loop never halts: it ends in `.ok`. -/
theorem load_chunks_ok_of_preserves_head {σ : Type} {mo : MemOps σ}
    (hmo : preserves_head mo) (disk : Nat → Nat) (cs ce dst : Nat) :
    ∀ (fuel offset : Nat) (mem : σ), ce ≤ cs + offset + fuel →
      ∃ m', (load_chunks mo disk cs ce dst offset mem fuel).1 = .ok m' := by
  intro fuel
  induction fuel with
  | zero =>
    intro offset mem hf
    exact ⟨mem, by rw [load_chunks_stop (by omega)]⟩
  | succ fuel ih =>
    intro offset mem hf
    by_cases h : cs + offset < ce
    · have hlen := chunk_len_pos h
      have hslice : chunk_slice disk (cs + offset) (chunk_len cs ce offset) ≠ [] :=
        chunk_slice_ne_nil hlen
      rw [load_chunks_succ_pass h (by rw [hmo _ _ _ hslice])]
      exact ih (offset + chunk_len cs ce offset) _ (by omega)
    · exact ⟨mem, by rw [load_chunks_stop h]⟩

theorem load_extents_nil {σ : Type} (mo : MemOps σ) (disk : Nat → Nat)
    (dst : Nat) (mem : σ) (t0 : Nat) :
    load_extents mo disk dst [] mem t0 = (.ok mem, [], t0) := rfl

theorem load_extents_cons_error {σ : Type} {mo : MemOps σ} {disk : Nat → Nat}
    {dst : Nat} {c : Cluster} {rest : List Cluster} {mem : σ} {t0 : Nat}
    {e : String}
    (hc : (load_chunks mo disk c.start_offset (c.start_offset + c.len_bytes)
      dst 0 mem c.len_bytes).1 = .error e) :
    load_extents mo disk dst (c :: rest) mem t0 =
      (.error e,
       (load_chunks mo disk c.start_offset (c.start_offset + c.len_bytes)
         dst 0 mem c.len_bytes).2,
       t0 + c.len_bytes) := by
  simp [load_extents, hc]

theorem load_extents_cons_ok {σ : Type} {mo : MemOps σ} {disk : Nat → Nat}
    {dst : Nat} {c : Cluster} {rest : List Cluster} {mem mem2 : σ} {t0 : Nat}
    (hc : (load_chunks mo disk c.start_offset (c.start_offset + c.len_bytes)
      dst 0 mem c.len_bytes).1 = .ok mem2) :
    load_extents mo disk dst (c :: rest) mem t0 =
      ((load_extents mo disk dst rest mem2 (t0 + c.len_bytes)).1,
       (load_chunks mo disk c.start_offset (c.start_offset + c.len_bytes)
         dst 0 mem c.len_bytes).2 ++
         (load_extents mo disk dst rest mem2 (t0 + c.len_bytes)).2.1,
       (load_extents mo disk dst rest mem2 (t0 + c.len_bytes)).2.2) := by
  simp [load_extents, hc]

/-- When the bridge returns the first written byte on readback, no
extent's streaming halts: `load_extents` ends in `.ok`. -/
theorem load_extents_ok_of_preserves_head {σ : Type} {mo : MemOps σ}
    (hmo : preserves_head mo) (disk : Nat → Nat) (dst : Nat) :
    ∀ (extents : List Cluster) (mem : σ) (t0 : Nat),
      ∃ m', (load_extents mo disk dst extents mem t0).1 = .ok m' := by
  intro extents
  induction extents with
  | nil => intro mem t0; exact ⟨mem, rfl⟩
  | cons c rest ih =>
    intro mem t0
    obtain ⟨m2, h2⟩ := load_chunks_ok_of_preserves_head hmo disk c.start_offset
      (c.start_offset + c.len_bytes) dst c.len_bytes 0 mem (by omega)
    obtain ⟨m3, h3⟩ := ih m2 (t0 + c.len_bytes)
    exact ⟨m3, by rw [load_extents_cons_ok h2]; exact h3⟩

theorem load_file_lookup_none {σ : Type} {mo : MemOps σ} {disk : Nat → Nat}
    {files : String → Option (List Cluster)} {name : String} {dst : Nat}
    {mem : σ} (h : files name = none) :
    load_file mo disk files name dst mem = (.error "file not found", []) := by
  simp [load_file, h]

theorem load_file_lookup_some_error {σ : Type} {mo : MemOps σ}
    {disk : Nat → Nat} {files : String → Option (List Cluster)} {name : String}
    {dst : Nat} {mem : σ} {extents : List Cluster} {e : String}
    (h : files name = some extents)
    (hr : (load_extents mo disk dst extents mem 0).1 = .error e) :
    load_file mo disk files name dst mem =
      (.error e,
       Event.loadStart name dst :: (load_extents mo disk dst extents mem 0).2.1) := by
  simp [load_file, h, hr]

theorem load_file_lookup_some_ok {σ : Type} {mo : MemOps σ}
    {disk : Nat → Nat} {files : String → Option (List Cluster)} {name : String}
    {dst : Nat} {mem : σ} {extents : List Cluster} {mem2 : σ}
    (h : files name = some extents)
    (hr : (load_extents mo disk dst extents mem 0).1 = .ok mem2) :
    load_file mo disk files name dst mem =
      (.ok (mem2, (load_extents mo disk dst extents mem 0).2.2),
       Event.loadStart name dst :: (load_extents mo disk dst extents mem 0).2.1) := by
  simp [load_file, h, hr]

/-- When the bridge returns the first written byte on readback and the
file exists, `load_file` succeeds. -/
theorem load_file_ok_of_preserves_head {σ : Type} {mo : MemOps σ}
    (hmo : preserves_head mo) {disk : Nat → Nat}
    {files : String → Option (List Cluster)} {name : String} {dst : Nat}
    {mem : σ} {extents : List Cluster} (h : files name = some extents) :
    exceptOk (load_file mo disk files name dst mem).1 = true := by
  obtain ⟨m2, h2⟩ := load_extents_ok_of_preserves_head hmo disk dst extents mem 0
  rw [load_file_lookup_some_ok h h2]
  rfl

/-! Theorems settling the claims. -/

/-- C2: the first file's destination is the fixed address `0x100000`
(1 MiB), the kernel's destination is the fixed address `0x1000000`
(16 MiB), and the second file's destination is the first file's
destination plus the first file's returned total, rounded up to the next
512-byte sector boundary (unchanged when that sum is already
sector-aligned). -/
theorem stage_destinations (stage_3_len : Nat) :
    STAGE_3_DST = 0x100000 ∧ KERNEL_DST = 0x1000000 ∧
    stage_4_dst stage_3_len =
      (if (STAGE_3_DST + stage_3_len) % 512 = 0 then STAGE_3_DST + stage_3_len
       else ((STAGE_3_DST + stage_3_len) / 512 + 1) * 512) := by
  refine ⟨rfl, rfl, ?_⟩
  simp only [stage_4_dst, align_offset, STAGE_3_DST]
  split <;> omega

/-- C3: parsing a 64-byte raw partition table yields 4 entries in input
order; entry `i` has its type classified from the byte at `i*16+4`, its
LBA read as a little-endian `u32` at `i*16+8` and its sector count read
as a little-endian `u32` at `i*16+12`. -/
theorem parse_entries_exact (raw : List Nat) (_hlen : raw.length = 64) :
    (parse_entries raw).length = 4 ∧
    ∀ i, i < 4 →
      (parse_entries raw).getD i default =
        { partition_type := from_mbr_tag_byte (raw.getD (i * 16 + 4) 0)
          logical_block_address :=
            raw.getD (i * 16 + 8) 0 + 2 ^ 8 * raw.getD (i * 16 + 9) 0 +
              2 ^ 16 * raw.getD (i * 16 + 10) 0 + 2 ^ 24 * raw.getD (i * 16 + 11) 0
          sector_count :=
            raw.getD (i * 16 + 12) 0 + 2 ^ 8 * raw.getD (i * 16 + 13) 0 +
              2 ^ 16 * raw.getD (i * 16 + 14) 0 + 2 ^ 24 * raw.getD (i * 16 + 15) 0 } := by
  refine ⟨rfl, ?_⟩
  intro i hi
  interval_cases i <;> rfl

/-- Witness for `parse_entries_exact` at the concrete table whose byte at
offset `j` is `j`. -/
theorem parse_entries_exact_witness :
    (List.range 64).length = 64 ∧ (parse_entries (List.range 64)).length = 4 :=
  ⟨by decide, (parse_entries_exact (List.range 64) (by decide)).1⟩

/-- C4: the FAT partition used for loading is the table entry at the index
immediately following the reserved (`Unknown 0x20`) entry; when that
entry's type is one of the three FAT variants selection succeeds with it,
and when it is not, the stage fails fatally (the `assert!`). -/
theorem fat_partition_follows_reserved (parts : List PartitionTableEntry)
    (idx : Nat) (fat_partition : PartitionTableEntry)
    (hfind : parts.findIdx? (fun e => decide (e.partition_type =
      PartitionType.unknown BOOTLOADER_SECOND_STAGE_PARTITION_TYPE)) = some idx)
    (hget : parts.get? (idx + 1) = some fat_partition) :
    (isFatType fat_partition.partition_type = true →
      select_partitions parts = .ok (idx, fat_partition)) ∧
    (isFatType fat_partition.partition_type = false →
      select_partitions parts = .error "unexpected partition type") := by
  unfold select_partitions
  rw [hfind]
  simp only [hget]
  constructor <;> intro h <;> simp [h]

/-- Witness for `fat_partition_follows_reserved`: a table with the
reserved entry at index 1 followed by a FAT16 entry. -/
theorem fat_partition_follows_reserved_witness :
    select_partitions
        [PartitionTableEntry.empty,
         { partition_type := .unknown 0x20, logical_block_address := 0, sector_count := 1 },
         { partition_type := .fat16 0x06, logical_block_address := 100, sector_count := 50 },
         PartitionTableEntry.empty] =
      .ok (1, { partition_type := .fat16 0x06, logical_block_address := 100,
                sector_count := 50 }) :=
  (fat_partition_follows_reserved _ 1 _ (by decide) (by decide)).1 (by decide)

/-- C5: the boot-partition search scans the 4 parsed entries for one whose
type is `Unknown 0x20`; when no entry has that type, both the selection
and the whole stage fail fatally with no recovery path. -/
theorem missing_reserved_partition_fatal {σ : Type} (mo : MemOps σ)
    (raw : List Nat) (disk : Nat → Nat) (files : String → Option (List Cluster))
    (mem : σ)
    (habsent : ∀ e ∈ parse_entries raw,
      e.partition_type ≠ PartitionType.unknown BOOTLOADER_SECOND_STAGE_PARTITION_TYPE) :
    BOOTLOADER_SECOND_STAGE_PARTITION_TYPE = 0x20 ∧
    (parse_entries raw).length = 4 ∧
    select_partitions (parse_entries raw) = .error "boot partition not found" ∧
    (start mo raw disk files mem).1 = .error "boot partition not found" := by
  have hfind : (parse_entries raw).findIdx? (fun e => decide (e.partition_type =
      PartitionType.unknown BOOTLOADER_SECOND_STAGE_PARTITION_TYPE)) = none := by
    rw [List.findIdx?_eq_none_iff]
    intro e he
    simpa using habsent e he
  have hsel : select_partitions (parse_entries raw) = .error "boot partition not found" := by
    unfold select_partitions
    rw [hfind]
  exact ⟨rfl, rfl, hsel, by simp [start, hsel]⟩

/-- Witness for `missing_reserved_partition_fatal`: the all-zero table has
no reserved entry, so the stage halts. -/
theorem missing_reserved_partition_fatal_witness :
    (start flatMem (List.replicate 64 0) (fun a => a) (fun _ => none)
      (fun _ => 0)).1 = .error "boot partition not found" :=
  (missing_reserved_partition_fatal flatMem (List.replicate 64 0) (fun a => a)
    (fun _ => none) (fun _ => 0) (by decide)).2.2.2

/-- C10: when the reserved entry is the last entry of the 4-entry table
(index 3), the lookup of the following entry yields no entry and the
stage halts fatally right there; no disk read has been issued at that
point. -/
theorem reserved_last_entry_fatal {σ : Type} (mo : MemOps σ)
    (raw : List Nat) (disk : Nat → Nat) (files : String → Option (List Cluster))
    (mem : σ)
    (hfind : (parse_entries raw).findIdx? (fun e => decide (e.partition_type =
      PartitionType.unknown BOOTLOADER_SECOND_STAGE_PARTITION_TYPE)) = some 3) :
    (parse_entries raw).get? 4 = none ∧
    (start mo raw disk files mem).1 = .error "fat table entry not found" ∧
    ∀ s n, Event.diskRead s n ∉ (start mo raw disk files mem).2 := by
  have hget : (parse_entries raw).get? 4 = none := rfl
  have hsel : select_partitions (parse_entries raw) = .error "fat table entry not found" := by
    unfold select_partitions
    rw [hfind]
    simp only [hget]
  refine ⟨hget, by simp [start, hsel], ?_⟩
  intro s n
  simp [start, hsel]

/-- Witness for `reserved_last_entry_fatal`: a table whose only reserved
entry sits at index 3. -/
theorem reserved_last_entry_fatal_witness :
    (start flatMem (List.replicate 52 0 ++ 0x20 :: List.replicate 11 0)
        (fun a => a) (fun _ => none) (fun _ => 0)).1 =
      .error "fat table entry not found" ∧
    Event.diskRead 0 0x4000 ∉
      (start flatMem (List.replicate 52 0 ++ 0x20 :: List.replicate 11 0)
        (fun a => a) (fun _ => none) (fun _ => 0)).2 :=
  ⟨(reserved_last_entry_fatal flatMem _ (fun a => a) (fun _ => none) (fun _ => 0)
      (by decide)).2.1,
   (reserved_last_entry_fatal flatMem _ (fun a => a) (fun _ => none) (fun _ => 0)
      (by decide)).2.2 0 0x4000⟩

/-- Two-cluster extent chain of a 6-byte file over 4-byte clusters
(data region at offset 0, clusters 2 and 3). -/
def twoClusterExtents : List Cluster := file_clusters 0 4 [2, 3] 6

/-- A disk whose byte at offset `a` is `a + 10`. -/
def rampDisk : Nat → Nat := fun a => a + 10

/-- A root directory holding only the 6-byte two-cluster file. -/
def twoClusterDir : String → Option (List Cluster) := fun n =>
  if n = "boot-stage-3" then some twoClusterExtents else none

/-- The result of loading the two-cluster file at destination 100 into a
faithful memory initialised to 999 everywhere. -/
def twoClusterLoad : Except String ((Nat → Nat) × Nat) :=
  (load_file flatMem rampDisk twoClusterDir "boot-stage-3" 100 (fun _ => 999)).1

/-- C1 (refuted — code bug): `load_file` computes each chunk's destination
as `dst + offset` where `offset` restarts at 0 for every cluster
(main.rs lines 127 and 150), not the cumulative file offset.  For the
6-byte file spread over two 4-byte clusters the load succeeds, but the
second cluster's bytes land at `destination + 0` (overwriting the first
cluster's) and `destination + 4` is never written: the file's image does
not occupy `[destination, destination + file size)`. -/
theorem load_file_misplaces_multi_cluster :
    twoClusterExtents =
      [{ start_offset := 0, len_bytes := 4 }, { start_offset := 4, len_bytes := 2 }] ∧
    file_bytes rampDisk twoClusterExtents = [10, 11, 12, 13, 14, 15] ∧
    exceptOk twoClusterLoad = true ∧
    result_total twoClusterLoad = 6 ∧
    result_mem (fun _ => 0) twoClusterLoad 100 = 14 ∧
    result_mem (fun _ => 0) twoClusterLoad 104 = 999 ∧
    ¬ (∀ o, o < 6 → result_mem (fun _ => 0) twoClusterLoad (100 + o) =
        (file_bytes rampDisk twoClusterExtents).getD o 0) := by
  decide

/-- With the faithful memory, streaming one cluster lays its bytes down
contiguously: after the loop every address in `[dst + offset, dst + n)`
holds the corresponding disk byte and every other address is untouched.
Together with `load_file_misplaces_multi_cluster` this confines the
defect to multi-cluster files: each cluster's image individually starts
at `dst`. -/
theorem load_chunks_flatMem_image (disk : Nat → Nat) (s n dst : Nat) :
    ∀ (fuel offset : Nat) (mem : Nat → Nat),
      s + n ≤ s + offset + fuel →
      ∃ m', (load_chunks flatMem disk s (s + n) dst offset mem fuel).1 = .ok m' ∧
        (∀ a, dst + offset ≤ a → a < dst + n → m' a = disk (s + (a - dst))) ∧
        (∀ a, a < dst + offset ∨ dst + n ≤ a → m' a = mem a) := by
  intro fuel
  induction fuel with
  | zero =>
    intro offset mem hf
    refine ⟨mem, by rw [load_chunks_stop (by omega)], ?_, fun a _ => rfl⟩
    intro a ha1 ha2
    omega
  | succ fuel ih =>
    intro offset mem hf
    by_cases h : s + offset < s + n
    · have hpos := chunk_len_pos h
      have hle : offset + chunk_len s (s + n) offset ≤ n := by
        unfold chunk_len
        omega
      have hslice : chunk_slice disk (s + offset) (chunk_len s (s + n) offset) ≠ [] :=
        chunk_slice_ne_nil hpos
      rw [load_chunks_succ_pass h (by rw [flatMem_preserves_head _ _ _ hslice])]
      obtain ⟨m', hok, hin, hout⟩ := ih (offset + chunk_len s (s + n) offset)
        (flatMem.copy mem (dst + offset)
          (chunk_slice disk (s + offset) (chunk_len s (s + n) offset)))
        (by omega)
      refine ⟨m', hok, ?_, ?_⟩
      · intro a ha1 ha2
        by_cases hc : dst + (offset + chunk_len s (s + n) offset) ≤ a
        · exact hin a hc ha2
        · rw [hout a (Or.inl (by omega))]
          show mem_write mem (dst + offset)
            (chunk_slice disk (s + offset) (chunk_len s (s + n) offset)) a =
            disk (s + (a - dst))
          unfold mem_write
          rw [if_pos ⟨ha1, by rw [chunk_slice_length]; omega⟩]
          rw [chunk_slice_getD (by omega)]
          congr 1
          omega
      · intro a ha
        rw [hout a (by omega)]
        show mem_write mem (dst + offset)
          (chunk_slice disk (s + offset) (chunk_len s (s + n) offset)) a = mem a
        unfold mem_write
        rw [if_neg]
        rw [chunk_slice_length]
        omega
    · refine ⟨mem, by rw [load_chunks_stop h], ?_, fun a _ => rfl⟩
      intro a ha1 ha2
      omega

/-- With the faithful memory, a file consisting of a single cluster
extent is loaded exactly as claim C1 states: the complete image occupies
`[dst, dst + n)`. -/
theorem load_file_single_extent_image (disk : Nat → Nat)
    (files : String → Option (List Cluster)) (name : String) (dst : Nat)
    (mem : Nat → Nat) (s n : Nat)
    (hf : files name = some [{ start_offset := s, len_bytes := n }]) :
    ∃ m', (load_file flatMem disk files name dst mem).1 = .ok (m', n) ∧
      ∀ o, o < n →
        m' (dst + o) =
          (file_bytes disk [{ start_offset := s, len_bytes := n }]).getD o 0 := by
  obtain ⟨m', hok, hin, -⟩ :=
    load_chunks_flatMem_image disk s n dst n 0 mem (by omega)
  have hext : (load_extents flatMem disk dst
      [{ start_offset := s, len_bytes := n }] mem 0).1 = .ok m' := by
    rw [load_extents_cons_ok hok]
    rfl
  refine ⟨m', ?_, ?_⟩
  · rw [load_file_lookup_some_ok hf hext]
    rw [load_extents_cons_ok hok]
    simp [load_extents_nil]
  · intro o ho
    rw [hin (dst + o) (by omega) (by omega)]
    have hfb : file_bytes disk [{ start_offset := s, len_bytes := n }] =
        chunk_slice disk s n := by
      simp [file_bytes, chunk_slice]
    rw [hfb, chunk_slice_getD ho]
    congr 1
    omega

/-- Accumulated total of `load_extents` on success: the starting total
plus the sum of the `len_bytes` of all extents. -/
theorem load_extents_total_eq {σ : Type} (mo : MemOps σ) (disk : Nat → Nat)
    (dst : Nat) :
    ∀ (extents : List Cluster) (mem : σ) (t0 : Nat),
      exceptOk (load_extents mo disk dst extents mem t0).1 = true →
      (load_extents mo disk dst extents mem t0).2.2 =
        t0 + (extents.map Cluster.len_bytes).sum := by
  intro extents
  induction extents with
  | nil => intro mem t0 _; simp [load_extents]
  | cons c rest ih =>
    intro mem t0 hok
    cases hc : (load_chunks mo disk c.start_offset (c.start_offset + c.len_bytes)
        dst 0 mem c.len_bytes).1 with
    | error e =>
      rw [load_extents_cons_error hc] at hok
      simp [exceptOk] at hok
    | ok mem2 =>
      rw [load_extents_cons_ok hc] at hok ⊢
      rw [ih mem2 (t0 + c.len_bytes) hok]
      simp [List.sum_cons]
      ring

/-- Sum of the extent lengths produced by the spec-modelled chain walk:
`min remaining (chain length × cluster size)`. -/
theorem file_clusters_len_sum (dro cs : Nat) :
    ∀ (chain : List Nat) (remaining : Nat),
      ((file_clusters dro cs chain remaining).map Cluster.len_bytes).sum =
        min remaining (chain.length * cs) := by
  intro chain
  induction chain with
  | nil => intro r; simp [file_clusters]
  | cons c rest ih =>
    intro r
    have h1 : (rest.length + 1) * cs = rest.length * cs + cs := by ring
    simp only [file_clusters, List.map_cons, List.sum_cons, ih, List.length_cons, h1]
    omega

/-- C8: on success `load_file` returns the sum of the `len_bytes` of all
cluster extents produced for the file, and for a chain that covers the
file size this total equals the file's size in bytes (the final extent
being capped by the file size). -/
theorem load_file_total {σ : Type} (mo : MemOps σ) (disk : Nat → Nat)
    (files : String → Option (List Cluster)) (name : String) (dst : Nat)
    (mem : σ) (dro cs fileSize : Nat) (chain : List Nat)
    (hfiles : files name = some (file_clusters dro cs chain fileSize))
    (hok : exceptOk (load_file mo disk files name dst mem).1 = true) :
    result_total (load_file mo disk files name dst mem).1 =
      ((file_clusters dro cs chain fileSize).map Cluster.len_bytes).sum ∧
    (fileSize ≤ chain.length * cs →
      result_total (load_file mo disk files name dst mem).1 = fileSize) := by
  have hsum := file_clusters_len_sum dro cs chain fileSize
  cases hr : (load_extents mo disk dst (file_clusters dro cs chain fileSize) mem 0).1 with
  | error e =>
    rw [load_file_lookup_some_error hfiles hr] at hok
    simp [exceptOk] at hok
  | ok mem2 =>
    have htot := load_extents_total_eq mo disk dst
      (file_clusters dro cs chain fileSize) mem 0 (by rw [hr]; rfl)
    rw [load_file_lookup_some_ok hfiles hr]
    simp only [result_total, htot, Nat.zero_add]
    refine ⟨by simp, fun hcov => ?_⟩
    rw [hsum]
    omega

/-- Witness for `load_file_total`: the 3000-byte file over three 1024-byte
clusters; the final extent is capped at 952 bytes and the reported total
is exactly 3000. -/
theorem load_file_total_witness :
    (file_clusters 0 1024 [2, 3, 4] 3000).map Cluster.len_bytes =
      [1024, 1024, 952] ∧
    result_total (load_file flatMem (fun a => a)
      (fun _ => some (file_clusters 0 1024 [2, 3, 4] 3000)) "kernel-x86_64" 0
      (fun _ => 0)).1 = 3000 :=
  ⟨by decide,
   (load_file_total flatMem (fun a => a) _ "kernel-x86_64" 0 (fun _ => 0)
     0 1024 3000 [2, 3, 4] rfl
     (load_file_ok_of_preserves_head flatMem_preserves_head rfl)).2 (by decide)⟩

theorem corruptFirstMem_read_after_copy {m : Nat → Nat} {d : Nat}
    {bytes : List Nat} (h : bytes ≠ []) :
    corruptFirstMem.read (corruptFirstMem.copy m d bytes) d = bytes.headD 0 + 1 := by
  cases bytes with
  | nil => simp at h
  | cons b rest =>
    show mem_write m d ((b + 1) :: rest) d = (b :: rest).headD 0 + 1
    rw [mem_write_at_dst (by simp)]
    rfl

/-- C6: after every chunk copy, one byte is read back from the chunk's
destination start and compared with the chunk's first source byte.
(1) For any bridge, a readback differing from the chunk's first byte
halts the load fatally at once; (2) in particular a bridge that corrupts
the first byte of every copy is always caught; while (3) a bridge that
corrupts every byte of each chunk except the first is never caught — the
check covers only the first byte; and (4) the faithful memory always
passes the check. -/
theorem chunk_canary_checks_first_byte_only (disk : Nat → Nat)
    (cs ce dst offset fuel : Nat) (mem : Nat → Nat)
    (hlt : cs + offset < ce) (hfuel : ce ≤ cs + offset + fuel) :
    (∀ (σ : Type) (mo : MemOps σ) (m : σ),
      ¬ (chunk_slice disk (cs + offset) (chunk_len cs ce offset)).headD 0 =
          mo.read (mo.copy m (dst + offset)
            (chunk_slice disk (cs + offset) (chunk_len cs ce offset)))
            (dst + offset) →
      (load_chunks mo disk cs ce dst offset m fuel).1 =
        .error "canary mismatch") ∧
    (load_chunks corruptFirstMem disk cs ce dst offset mem fuel).1 =
      .error "canary mismatch" ∧
    (∃ m', (load_chunks corruptTailMem disk cs ce dst offset mem fuel).1 =
      .ok m') ∧
    (∃ m', (load_chunks flatMem disk cs ce dst offset mem fuel).1 = .ok m') := by
  have hlen := chunk_len_pos hlt
  have hslice : chunk_slice disk (cs + offset) (chunk_len cs ce offset) ≠ [] :=
    chunk_slice_ne_nil hlen
  obtain ⟨f, rfl⟩ : ∃ f, fuel = f + 1 := ⟨fuel - 1, by omega⟩
  refine ⟨?_, ?_, ?_, ?_⟩
  · intro σ mo m hfail
    rw [load_chunks_succ_fail hlt hfail]
  · rw [load_chunks_succ_fail hlt (by rw [corruptFirstMem_read_after_copy hslice]; omega)]
  · exact load_chunks_ok_of_preserves_head corruptTailMem_preserves_head disk
      cs ce dst (f + 1) offset mem hfuel
  · exact load_chunks_ok_of_preserves_head flatMem_preserves_head disk
      cs ce dst (f + 1) offset mem hfuel

/-- Witness for `chunk_canary_checks_first_byte_only` on the 6-byte
cluster at disk offset 0, destination 100. -/
theorem chunk_canary_witness :
    (load_chunks corruptFirstMem rampDisk 0 6 100 0 (fun _ => 999) 6).1 =
      .error "canary mismatch" ∧
    (∃ m', (load_chunks corruptTailMem rampDisk 0 6 100 0 (fun _ => 999) 6).1 =
      .ok m') ∧
    (∃ m', (load_chunks flatMem rampDisk 0 6 100 0 (fun _ => 999) 6).1 =
      .ok m') :=
  (chunk_canary_checks_first_byte_only rampDisk 0 6 100 0 6 (fun _ => 999)
    (by decide) (by decide)).2

/-- Every event of the chunk loop is a disk read of exactly
`DISK_BUFFER_SIZE` bytes or a chunk copy of at most `DISK_BUFFER_SIZE`
bytes. -/
theorem load_chunks_events {σ : Type} (mo : MemOps σ) (disk : Nat → Nat)
    (cs ce dst : Nat) :
    ∀ (fuel offset : Nat) (mem : σ) (e : Event),
      e ∈ (load_chunks mo disk cs ce dst offset mem fuel).2 →
      (∃ s, e = .diskRead s DISK_BUFFER_SIZE) ∨
      (∃ d l, e = .copyChunk d l ∧ l ≤ DISK_BUFFER_SIZE) := by
  intro fuel
  induction fuel with
  | zero =>
    intro offset mem e he
    by_cases h : cs + offset < ce
    · rw [load_chunks.eq_def] at he
      simp [h] at he
    · rw [load_chunks_stop h] at he
      simp at he
  | succ fuel ih =>
    intro offset mem e he
    by_cases h : cs + offset < ce
    · by_cases hc : (chunk_slice disk (cs + offset)
          (chunk_len cs ce offset)).headD 0 =
          mo.read (mo.copy mem (dst + offset)
            (chunk_slice disk (cs + offset) (chunk_len cs ce offset)))
            (dst + offset)
      · rw [load_chunks_succ_pass h hc] at he
        simp only [List.mem_cons] at he
        rcases he with rfl | he
        · exact Or.inl ⟨_, rfl⟩
        rcases he with rfl | he
        · exact Or.inr ⟨_, _, rfl, chunk_len_le cs ce offset⟩
        · exact ih _ _ _ he
      · rw [load_chunks_succ_fail h hc] at he
        simp only [List.mem_cons, List.not_mem_nil, or_false] at he
        rcases he with rfl | rfl
        · exact Or.inl ⟨_, rfl⟩
        · exact Or.inr ⟨_, _, rfl, chunk_len_le cs ce offset⟩
    · rw [load_chunks_stop h] at he
      simp at he

/-- Every event of `load_extents` is a bounded disk read or bounded
chunk copy. -/
theorem load_extents_events {σ : Type} (mo : MemOps σ) (disk : Nat → Nat)
    (dst : Nat) :
    ∀ (extents : List Cluster) (mem : σ) (t0 : Nat) (e : Event),
      e ∈ (load_extents mo disk dst extents mem t0).2.1 →
      (∃ s, e = .diskRead s DISK_BUFFER_SIZE) ∨
      (∃ d l, e = .copyChunk d l ∧ l ≤ DISK_BUFFER_SIZE) := by
  intro extents
  induction extents with
  | nil =>
    intro mem t0 e he
    rw [load_extents_nil] at he
    simp at he
  | cons c rest ih =>
    intro mem t0 e he
    cases hc : (load_chunks mo disk c.start_offset (c.start_offset + c.len_bytes)
        dst 0 mem c.len_bytes).1 with
    | error err =>
      rw [load_extents_cons_error hc] at he
      exact load_chunks_events mo disk c.start_offset
        (c.start_offset + c.len_bytes) dst c.len_bytes 0 mem e he
    | ok mem2 =>
      rw [load_extents_cons_ok hc] at he
      rw [List.mem_append] at he
      rcases he with he | he
      · exact load_chunks_events mo disk c.start_offset
          (c.start_offset + c.len_bytes) dst c.len_bytes 0 mem e he
      · exact ih mem2 (t0 + c.len_bytes) e he

/-- Every event of `load_file` is its `loadStart` or a bounded disk
read / chunk copy. -/
theorem load_file_events {σ : Type} (mo : MemOps σ) (disk : Nat → Nat)
    (files : String → Option (List Cluster)) (name : String) (dst : Nat)
    (mem : σ) (e : Event)
    (he : e ∈ (load_file mo disk files name dst mem).2) :
    e = .loadStart name dst ∨
    (∃ s, e = .diskRead s DISK_BUFFER_SIZE) ∨
    (∃ d l, e = .copyChunk d l ∧ l ≤ DISK_BUFFER_SIZE) := by
  cases hf : files name with
  | none =>
    rw [load_file_lookup_none hf] at he
    simp at he
  | some extents =>
    cases hr : (load_extents mo disk dst extents mem 0).1 with
    | error err =>
      rw [load_file_lookup_some_error hf hr] at he
      rw [List.mem_cons] at he
      rcases he with rfl | he
      · exact Or.inl rfl
      · exact Or.inr (load_extents_events mo disk dst extents mem 0 e he)
    | ok mem2 =>
      rw [load_file_lookup_some_ok hf hr] at he
      rw [List.mem_cons] at he
      rcases he with rfl | he
      · exact Or.inl rfl
      · exact Or.inr (load_extents_events mo disk dst extents mem 0 e he)

/-- Every event of a full `start` run is one of the orchestrator's own
events or a bounded disk read / chunk copy from a load. -/
theorem start_events {σ : Type} (mo : MemOps σ) (raw : List Nat)
    (disk : Nat → Nat) (files : String → Option (List Cluster)) (mem : σ)
    (e : Event) (he : e ∈ (start mo raw disk files mem).2) :
    e = .enterUnreal ∨ e = .parseTable ∨ (∃ n d, e = .loadStart n d) ∨
    (∃ s, e = .diskRead s DISK_BUFFER_SIZE) ∨
    (∃ d l, e = .copyChunk d l ∧ l ≤ DISK_BUFFER_SIZE) ∨
    e = .jump STAGE_3_DST := by
  have hload : ∀ (nm : String) (d : Nat) (m : σ),
      e ∈ (load_file mo disk files nm d m).2 →
      (e = .enterUnreal ∨ e = .parseTable ∨ (∃ n d', e = .loadStart n d') ∨
       (∃ s, e = .diskRead s DISK_BUFFER_SIZE) ∨
       (∃ d' l, e = .copyChunk d' l ∧ l ≤ DISK_BUFFER_SIZE) ∨
       e = .jump STAGE_3_DST) := by
    intro nm d m hm
    rcases load_file_events mo disk files nm d m e hm with h | h | h
    · exact Or.inr (Or.inr (Or.inl ⟨nm, d, h⟩))
    · exact Or.inr (Or.inr (Or.inr (Or.inl h)))
    · exact Or.inr (Or.inr (Or.inr (Or.inr (Or.inl h))))
  unfold start at he
  cases hsel : select_partitions (parse_entries raw) with
  | error err =>
    rw [hsel] at he
    simp only [List.mem_cons, List.not_mem_nil, or_false] at he
    rcases he with rfl | rfl
    · exact Or.inl rfl
    · exact Or.inr (Or.inl rfl)
  | ok p =>
    rw [hsel] at he
    simp only [] at he
    rcases h3 : load_file mo disk files "boot-stage-3" STAGE_3_DST mem with ⟨r3, t1⟩
    rw [h3] at he
    cases r3 with
    | error e3 =>
      simp only [List.cons_append, List.nil_append, List.mem_cons,
        List.mem_append, List.not_mem_nil, or_false] at he
      rcases he with rfl | rfl | he
      · exact Or.inl rfl
      · exact Or.inr (Or.inl rfl)
      · exact hload _ _ _ (by rw [h3]; exact he)
    | ok v3 =>
      obtain ⟨mem1, stage_3_len⟩ := v3
      simp only [] at he
      rcases h4 : load_file mo disk files "boot-stage-4" (stage_4_dst stage_3_len) mem1
        with ⟨r4, t2⟩
      rw [h4] at he
      cases r4 with
      | error e4 =>
        simp only [List.cons_append, List.nil_append, List.mem_cons,
          List.mem_append, List.not_mem_nil, or_false] at he
        rcases he with rfl | rfl | (he | he)
        · exact Or.inl rfl
        · exact Or.inr (Or.inl rfl)
        · exact hload _ _ _ (by rw [h3]; exact he)
        · exact hload _ _ _ (by rw [h4]; exact he)
      | ok v4 =>
        obtain ⟨mem2, l4⟩ := v4
        simp only [] at he
        rcases h5 : load_file mo disk files "kernel-x86_64" KERNEL_DST mem2
          with ⟨r5, t3⟩
        rw [h5] at he
        cases r5 with
        | error e5 =>
          simp only [List.cons_append, List.nil_append, List.mem_cons,
            List.mem_append, List.not_mem_nil, or_false] at he
          rcases he with rfl | rfl | ((he | he) | he)
          · exact Or.inl rfl
          · exact Or.inr (Or.inl rfl)
          · exact hload _ _ _ (by rw [h3]; exact he)
          · exact hload _ _ _ (by rw [h4]; exact he)
          · exact hload _ _ _ (by rw [h5]; exact he)
        | ok v5 =>
          obtain ⟨mem3, l5⟩ := v5
          simp only [List.cons_append, List.nil_append, List.mem_cons,
            List.mem_append, List.not_mem_nil, or_false] at he
          rcases he with rfl | rfl | (((he | he) | he) | rfl)
          · exact Or.inl rfl
          · exact Or.inr (Or.inl rfl)
          · exact hload _ _ _ (by rw [h3]; exact he)
          · exact hload _ _ _ (by rw [h4]; exact he)
          · exact hload _ _ _ (by rw [h5]; exact he)
          · exact Or.inr (Or.inr (Or.inr (Or.inr (Or.inr rfl))))

/-- C9: every disk read issued while streaming the three files requests
exactly the staging buffer's capacity of `0x4000` bytes, and every chunk
copied onward has length at most that capacity; the single buffer bound
is the same constant across the whole run. -/
theorem disk_reads_bounded_by_buffer {σ : Type} (mo : MemOps σ)
    (raw : List Nat) (disk : Nat → Nat)
    (files : String → Option (List Cluster)) (mem : σ) :
    DISK_BUFFER_SIZE = 0x4000 ∧
    (∀ s n, Event.diskRead s n ∈ (start mo raw disk files mem).2 →
      n = DISK_BUFFER_SIZE) ∧
    (∀ d l, Event.copyChunk d l ∈ (start mo raw disk files mem).2 →
      l ≤ DISK_BUFFER_SIZE) := by
  refine ⟨rfl, ?_, ?_⟩
  · intro s n hmem
    rcases start_events mo raw disk files mem _ hmem with h | h | ⟨n', d', h⟩ |
      ⟨s', h⟩ | ⟨d', l', h, _⟩ | h <;> simp_all
  · intro d l hmem
    rcases start_events mo raw disk files mem _ hmem with h | h | ⟨n', d', h⟩ |
      ⟨s', h⟩ | ⟨d', l', h, hle⟩ | h <;> simp_all

/-- Witness for `disk_reads_bounded_by_buffer`: a complete successful run
whose trace contains the disk read at offset 0. -/
theorem disk_reads_bounded_witness :
    Event.diskRead 0 DISK_BUFFER_SIZE ∈
      (start flatMem
        (List.replicate 16 0 ++
          [0, 0, 0, 0, 0x20, 0, 0, 0, 1, 0, 0, 0, 1, 0, 0, 0] ++
          [0, 0, 0, 0, 0x06, 0, 0, 0, 2, 0, 0, 0, 8, 0, 0, 0] ++
          List.replicate 16 0)
        rampDisk twoClusterDir (fun _ => 999)).2 ∧
    (0x4000 : Nat) = DISK_BUFFER_SIZE :=
  ⟨by decide,
   (disk_reads_bounded_by_buffer flatMem
      (List.replicate 16 0 ++
        [0, 0, 0, 0, 0x20, 0, 0, 0, 1, 0, 0, 0, 1, 0, 0, 0] ++
        [0, 0, 0, 0, 0x06, 0, 0, 0, 2, 0, 0, 0, 8, 0, 0, 0] ++
        List.replicate 16 0)
      rampDisk twoClusterDir (fun _ => 999)).2.1 0 0x4000 (by decide)⟩

/-- The `(name, destination)` pairs of the `loadStart` events of a trace,
in order. -/
def load_starts (tr : List Event) : List (String × Nat) :=
  tr.filterMap fun e =>
    match e with
    | .loadStart n d => some (n, d)
    | _ => none

/-- The addresses of the `jump` events of a trace, in order. -/
def jump_addrs (tr : List Event) : List Nat :=
  tr.filterMap fun e =>
    match e with
    | .jump a => some a
    | _ => none

theorem load_starts_append (a b : List Event) :
    load_starts (a ++ b) = load_starts a ++ load_starts b := by
  simp [load_starts, List.filterMap_append]

theorem jump_addrs_append (a b : List Event) :
    jump_addrs (a ++ b) = jump_addrs a ++ jump_addrs b := by
  simp [jump_addrs, List.filterMap_append]

/-- The trace of `load_extents` has no `loadStart`, no `jump` and no
`enterUnreal` events. -/
theorem load_extents_trace_flat {σ : Type} (mo : MemOps σ) (disk : Nat → Nat)
    (dst : Nat) (extents : List Cluster) (mem : σ) (t0 : Nat) :
    load_starts (load_extents mo disk dst extents mem t0).2.1 = [] ∧
    jump_addrs (load_extents mo disk dst extents mem t0).2.1 = [] ∧
    Event.enterUnreal ∉ (load_extents mo disk dst extents mem t0).2.1 := by
  refine ⟨List.filterMap_eq_nil_iff.mpr ?_, List.filterMap_eq_nil_iff.mpr ?_, ?_⟩
  · intro e he
    rcases load_extents_events mo disk dst extents mem t0 e he with
      ⟨s, rfl⟩ | ⟨d, l, rfl, _⟩ <;> rfl
  · intro e he
    rcases load_extents_events mo disk dst extents mem t0 e he with
      ⟨s, rfl⟩ | ⟨d, l, rfl, _⟩ <;> rfl
  · intro he
    rcases load_extents_events mo disk dst extents mem t0 _ he with
      ⟨s, h⟩ | ⟨d, l, h, _⟩ <;> simp at h

/-- The trace of a successful `load_file` opens with its own `loadStart`
event and otherwise carries only disk reads and chunk copies. -/
theorem load_file_ok_trace {σ : Type} {mo : MemOps σ} {disk : Nat → Nat}
    {files : String → Option (List Cluster)} {name : String} {dst : Nat}
    {mem : σ} {m2 : σ} {tot : Nat} {t : List Event}
    (h : load_file mo disk files name dst mem = (.ok (m2, tot), t)) :
    load_starts t = [(name, dst)] ∧ jump_addrs t = [] ∧
    Event.enterUnreal ∉ t := by
  cases hf : files name with
  | none =>
    rw [load_file_lookup_none hf] at h
    simp at h
  | some extents =>
    cases hr : (load_extents mo disk dst extents mem 0).1 with
    | error e =>
      rw [load_file_lookup_some_error hf hr] at h
      simp at h
    | ok mem2 =>
      rw [load_file_lookup_some_ok hf hr] at h
      obtain ⟨-, ht⟩ := Prod.mk.injEq .. ▸ h
      obtain ⟨hls, hja, hnu⟩ := load_extents_trace_flat mo disk dst extents mem 0
      subst ht
      refine ⟨?_, ?_, ?_⟩
      · simp only [load_starts, List.filterMap_cons] at hls ⊢
        simp [hls]
      · simp only [jump_addrs, List.filterMap_cons] at hja ⊢
        simp [hja]
      · simp [hnu]

/-- C7: in every successful run the orchestrator enters unreal mode
first, then parses the partition table, then performs the three loads in
fixed order — boot-stage-3 at `STAGE_3_DST`, boot-stage-4 at the derived
`stage_4_dst`, kernel-x86_64 at `KERNEL_DST` — and the jump to
`STAGE_3_DST` is the single jump event and the very last event of the
run (nothing follows it). -/
theorem orchestrator_sequence {σ : Type} (mo : MemOps σ) (raw : List Nat)
    (disk : Nat → Nat) (files : String → Option (List Cluster)) (mem : σ)
    (hok : exceptOk (start mo raw disk files mem).1 = true) :
    ∃ stage_3_len tr,
      (start mo raw disk files mem).2 =
        Event.enterUnreal :: Event.parseTable :: tr ∧
      Event.enterUnreal ∉ tr ∧
      load_starts tr =
        [("boot-stage-3", STAGE_3_DST), ("boot-stage-4", stage_4_dst stage_3_len),
         ("kernel-x86_64", KERNEL_DST)] ∧
      jump_addrs tr = [STAGE_3_DST] ∧
      tr.getLast? = some (Event.jump STAGE_3_DST) := by
  unfold start at hok ⊢
  cases hsel : select_partitions (parse_entries raw) with
  | error e =>
    rw [hsel] at hok
    simp [exceptOk] at hok
  | ok p =>
    rw [hsel] at hok
    simp only [] at hok ⊢
    rcases h3 : load_file mo disk files "boot-stage-3" STAGE_3_DST mem with ⟨r3, t1⟩
    rw [h3] at hok
    cases r3 with
    | error e3 => simp [exceptOk] at hok
    | ok v3 =>
    obtain ⟨mem1, l3⟩ := v3
    simp only [] at hok ⊢
    rcases h4 : load_file mo disk files "boot-stage-4" (stage_4_dst l3) mem1
      with ⟨r4, t2⟩
    rw [h4] at hok
    cases r4 with
    | error e4 => simp [exceptOk] at hok
    | ok v4 =>
    obtain ⟨mem2, l4⟩ := v4
    simp only [] at hok ⊢
    rcases h5 : load_file mo disk files "kernel-x86_64" KERNEL_DST mem2
      with ⟨r5, t3⟩
    rw [h5] at hok
    cases r5 with
    | error e5 => simp [exceptOk] at hok
    | ok v5 =>
    obtain ⟨mem3, l5⟩ := v5
    obtain ⟨hls1, hja1, hnu1⟩ := load_file_ok_trace h3
    obtain ⟨hls2, hja2, hnu2⟩ := load_file_ok_trace h4
    obtain ⟨hls3, hja3, hnu3⟩ := load_file_ok_trace h5
    refine ⟨l3, t1 ++ (t2 ++ (t3 ++ [Event.jump STAGE_3_DST])), ?_, ?_, ?_, ?_, ?_⟩
    · simp [List.append_assoc]
    · intro hmem
      simp only [List.mem_append, List.mem_cons, List.not_mem_nil, or_false] at hmem
      rcases hmem with h | h | h | h
      · exact hnu1 h
      · exact hnu2 h
      · exact hnu3 h
      · simp at h
    · rw [load_starts_append, load_starts_append, load_starts_append,
        hls1, hls2, hls3]
      rfl
    · rw [jump_addrs_append, jump_addrs_append, jump_addrs_append,
        hja1, hja2, hja3]
      rfl
    · rw [List.getLast?_append_of_ne_nil _ (by simp),
        List.getLast?_append_of_ne_nil _ (by simp),
        List.getLast?_append_of_ne_nil _ (by simp)]
      rfl

/-- A demo partition table: reserved entry at index 1, FAT16 entry at
index 2. -/
def demoTable : List Nat :=
  List.replicate 16 0 ++
    [0, 0, 0, 0, 0x20, 0, 0, 0, 1, 0, 0, 0, 1, 0, 0, 0] ++
    [0, 0, 0, 0, 0x06, 0, 0, 0, 2, 0, 0, 0, 8, 0, 0, 0] ++
    List.replicate 16 0

/-- A root directory holding all three expected files as small cluster
chains. -/
def threeFilesDir : String → Option (List Cluster) := fun n =>
  if n = "boot-stage-3" then some (file_clusters 0 4 [2] 3)
  else if n = "boot-stage-4" then some (file_clusters 0 4 [2, 3] 5)
  else if n = "kernel-x86_64" then some (file_clusters 16 4 [5] 4)
  else none

/-- Witness for `orchestrator_sequence`: a complete successful concrete
run. -/
theorem orchestrator_sequence_witness :
    ∃ stage_3_len tr,
      (start flatMem demoTable rampDisk threeFilesDir (fun _ => 999)).2 =
        Event.enterUnreal :: Event.parseTable :: tr ∧
      Event.enterUnreal ∉ tr ∧
      load_starts tr =
        [("boot-stage-3", STAGE_3_DST), ("boot-stage-4", stage_4_dst stage_3_len),
         ("kernel-x86_64", KERNEL_DST)] ∧
      jump_addrs tr = [STAGE_3_DST] ∧
      tr.getLast? = some (Event.jump STAGE_3_DST) :=
  orchestrator_sequence flatMem demoTable rampDisk threeFilesDir (fun _ => 999)
    (by decide)

end Springboard
